import Mathlib

/-!
# FLTiles: verification of the tile-viewer core (src/main.cpp)

Shallow embedding of the coordinate-transform / viewport-culling /
LOD-stepping / hover-picking / scroll-sync core of the FLTK tilemap viewer.
Float arithmetic of the source is modelled by exact rational arithmetic (ℚ);
C float-to-int casts (truncation toward zero) are modelled by `cIntCast`.
-/

namespace FLTiles

/-- `const int TILE_SIZE = 16;` (src/main.cpp:34). -/
def TILE_SIZE : ℤ := 16

/-- `const int MAP_WIDTH = 10000;` (src/main.cpp:35). -/
def MAP_WIDTH : ℤ := 10000

/-- `const int MAP_HEIGHT = 10000;` (src/main.cpp:36). -/
def MAP_HEIGHT : ℤ := 10000

/-- `const float MIN_VISIBLE_PIXELS = 4.0f;` (src/main.cpp:38). -/
def MIN_VISIBLE_PIXELS : ℚ := 4

/-- C-style cast of a floating value to `int`: truncation toward zero. -/
def cIntCast (q : ℚ) : ℤ := if 0 ≤ q then ⌊q⌋ else ⌈q⌉

/-- The mutable view state of `TilemapWindow` (src/main.cpp:55-66):
pan offset, zoom factor, and the hovered-tile pair. -/
structure State where
  offsetX : ℚ
  offsetY : ℚ
  zoom : ℚ
  hoveredX : ℤ
  hoveredY : ℤ
deriving Repr, DecidableEq

/-- Initial state: `offsetX = 0, offsetY = 0, zoom = 1.0, hoveredX = -1,
hoveredY = -1` (src/main.cpp:55-66 member initializers). -/
def initState : State :=
  { offsetX := 0, offsetY := 0, zoom := 1, hoveredX := -1, hoveredY := -1 }

/-- `screenToWorld(sx, sy) = ((sx - offsetX)/zoom, (sy - offsetY)/zoom)`,
the conversion used identically at src/main.cpp:224-225 and 262-263. -/
def screenToWorld (s : State) (sx sy : ℚ) : ℚ × ℚ :=
  ((sx - s.offsetX) / s.zoom, (sy - s.offsetY) / s.zoom)

/-- The LOD stride (src/main.cpp:182-183):
`float pixelsPerTile = TILE_SIZE * zoom;`
`int step = std::max(1, (int)std::ceil(MIN_VISIBLE_PIXELS / pixelsPerTile));`
(`std::ceil` of a positive quotient is integral, so the C cast is exact). -/
def stepOf (zoom : ℚ) : ℤ :=
  max 1 ⌈MIN_VISIBLE_PIXELS / ((TILE_SIZE : ℚ) * zoom)⌉

/-- The visible tile range plus LOD stride computed in `TilemapWindow::draw`. -/
structure VisibleRange where
  tileX0 : ℤ
  tileY0 : ℤ
  tileX1 : ℤ
  tileY1 : ℤ
  step : ℤ
deriving Repr, DecidableEq

/-- The viewport culler of `TilemapWindow::draw` (src/main.cpp:156-183):
world-space view bounds from the inverse transform, divided by `TILE_SIZE`,
floor on the low edge, ceil on the high edge, clamped to the map bounds,
together with the LOD stride. `w`/`h` are the viewport size `w()`/`h()`. -/
def computeRange (offsetX offsetY zoom : ℚ) (w h : ℤ) : VisibleRange :=
  let invZoom : ℚ := 1 / zoom
  let viewLeft := -offsetX * invZoom
  let viewTop := -offsetY * invZoom
  let viewRight := ((w : ℚ) - offsetX) * invZoom
  let viewBottom := ((h : ℚ) - offsetY) * invZoom
  let tileX0 := max 0 ⌊viewLeft / (TILE_SIZE : ℚ)⌋
  let tileY0 := max 0 ⌊viewTop / (TILE_SIZE : ℚ)⌋
  let tileX1 := min MAP_WIDTH ⌈viewRight / (TILE_SIZE : ℚ)⌉
  let tileY1 := min MAP_HEIGHT ⌈viewBottom / (TILE_SIZE : ℚ)⌉
  ⟨tileX0, tileY0, tileX1, tileY1, stepOf zoom⟩

/-- Index sequence of the C loop `for (int x = t0; x < t1; x += s)`
(src/main.cpp:185-186): `t0, t0+s, t0+2s, ...` while `< t1`. -/
def loopIters (t0 t1 s : ℤ) : List ℤ :=
  if h : 0 < s ∧ t0 < t1 then t0 :: loopIters (t0 + s) t1 s else []
termination_by (t1 - t0).toNat
decreasing_by
  have h1 := h.1
  have h2 := h.2
  omega

/-- Number of grid cells visited by the nested tile loop of
src/main.cpp:185-190 for a given visible range. -/
def visitedCount (r : VisibleRange) : ℕ :=
  (loopIters r.tileX0 r.tileX1 r.step).length *
    (loopIters r.tileY0 r.tileY1 r.step).length

/-- `TilemapWindow::updateHoveredTile` (src/main.cpp:223-234). The source
computes `tileX = (int)(fx / TILE_SIZE)` — a C cast, i.e. truncation toward
zero — then range-checks before storing, else stores `(-1, -1)`. -/
def updateHoveredTile (s : State) (mouseX mouseY : ℤ) : State :=
  let fx := ((mouseX : ℚ) - s.offsetX) / s.zoom
  let fy := ((mouseY : ℚ) - s.offsetY) / s.zoom
  let tileX := cIntCast (fx / (TILE_SIZE : ℚ))
  let tileY := cIntCast (fy / (TILE_SIZE : ℚ))
  if tileX ≥ 0 ∧ tileY ≥ 0 ∧ tileX < MAP_WIDTH ∧ tileY < MAP_HEIGHT then
    { s with hoveredX := tileX, hoveredY := tileY }
  else
    { s with hoveredX := -1, hoveredY := -1 }

/-- The hover-outline guard of `TilemapWindow::draw` (src/main.cpp:193):
the outline is drawn iff `hoveredX >= 0 && hoveredY >= 0`. -/
def drawsHoverOutline (s : State) : Prop :=
  0 ≤ s.hoveredX ∧ 0 ≤ s.hoveredY

instance (s : State) : Decidable (drawsHoverOutline s) := by
  unfold drawsHoverOutline; infer_instance

/-- The `FL_MOUSEWHEEL` branch of `TilemapWindow::handle`
(src/main.cpp:259-269), with the zoom factor as a parameter:
convert the anchor to world coordinates under the old transform, multiply
the zoom, and re-solve the offset so the anchor's world point is fixed. -/
def wheelZoomAt (s : State) (mx my factor : ℚ) : State :=
  let worldX := (mx - s.offsetX) / s.zoom
  let worldY := (my - s.offsetY) / s.zoom
  let zoom2 := s.zoom * factor
  { s with zoom := zoom2,
           offsetX := mx - worldX * zoom2,
           offsetY := my - worldY * zoom2 }

/-- Input events handled by the view (src/main.cpp:236-276 and the scrollbar
callbacks at src/main.cpp:288-300): a drag by a pixel delta, a mouse wheel
at an anchor (`down = true` gives factor 0.9, else 1.1), a pointer move,
and a user-driven scrollbar position change on either axis. -/
inductive Event where
  | drag (dx dy : ℤ)
  | wheel (mx my : ℤ) (down : Bool)
  | move (mx my : ℤ)
  | hscroll (pos : ℤ)
  | vscroll (pos : ℤ)
deriving Repr, DecidableEq

/-- One event-handler step on the view state. `drag` adds the delta to the
offset (src/main.cpp:249-250); `wheel` is the anchored zoom with factor
`0.9` or `1.1` (src/main.cpp:264); `move` recomputes the hovered tile
(src/main.cpp:272); the scrollbar callbacks set the offset to the negated
scrollbar position (src/main.cpp:290, 298). -/
def stepEvent (s : State) : Event → State
  | .drag dx dy =>
      { s with offsetX := s.offsetX + (dx : ℚ), offsetY := s.offsetY + (dy : ℚ) }
  | .wheel mx my down =>
      wheelZoomAt s (mx : ℚ) (my : ℚ) (if down then 9/10 else 11/10)
  | .move mx my => updateHoveredTile s mx my
  | .hscroll p => { s with offsetX := -(p : ℚ) }
  | .vscroll p => { s with offsetY := -(p : ℚ) }

/-- Run a finite sequence of input events from a starting state. -/
def runEvents (s : State) (es : List Event) : State :=
  es.foldl stepEvent s

/-- One scrollbar's parameters as passed to `Fl_Scrollbar::value(position,
pageSize, min, max)` (integer-valued API). -/
structure ScrollState where
  pos : ℤ
  pageSize : ℤ
  minV : ℤ
  maxV : ℤ
deriving Repr, DecidableEq

/-- `TilemapScrollView::updateScrollbars` (src/main.cpp:307-315):
`contentW = (int)(MAP_WIDTH * TILE_SIZE * zoom)` and the
`value((int)-offset, view, 0, max(view, content))` call on each axis;
returns the horizontal and vertical scrollbar parameters. -/
def updateScrollbars (s : State) (viewW viewH : ℤ) : ScrollState × ScrollState :=
  let contentW := cIntCast (((MAP_WIDTH * TILE_SIZE : ℤ) : ℚ) * s.zoom)
  let contentH := cIntCast (((MAP_HEIGHT * TILE_SIZE : ℤ) : ℚ) * s.zoom)
  (⟨cIntCast (-s.offsetX), viewW, 0, max viewW contentW⟩,
   ⟨cIntCast (-s.offsetY), viewH, 0, max viewH contentH⟩)

/-- The horizontal scrollbar callback (src/main.cpp:288-292): sets
`offsetX = -hscroll->value()` and requests a redraw; it does not touch the
scrollbar itself and does not call `updateScrollbars`. -/
def hscrollCallback (s : State) (p : ℤ) : State :=
  { s with offsetX := -(p : ℚ) }

/-- The vertical scrollbar callback (src/main.cpp:294-300). -/
def vscrollCallback (s : State) (p : ℤ) : State :=
  { s with offsetY := -(p : ℚ) }

/-- A tile's world-space quad `[tx*TILE_SIZE, (tx+1)*TILE_SIZE] ×
[ty*TILE_SIZE, (ty+1)*TILE_SIZE]` overlaps (with positive area) the
world-space image of the viewport `[0,w] × [0,h]` under the inverse of the
transform of state `(offsetX, offsetY, zoom)`. -/
def tileOverlapsViewport (offsetX offsetY zoom : ℚ) (w h : ℤ) (tx ty : ℤ) : Prop :=
  ((tx : ℚ) * TILE_SIZE < ((w : ℚ) - offsetX) / zoom) ∧
  (-offsetX / zoom < ((tx : ℚ) + 1) * TILE_SIZE) ∧
  ((ty : ℚ) * TILE_SIZE < ((h : ℚ) - offsetY) / zoom) ∧
  (-offsetY / zoom < ((ty : ℚ) + 1) * TILE_SIZE)

/-! ## C3: anchor-preserving zoom -/

/-- C3: for every state with `zoom > 0`, every screen anchor `(mx, my)` and
zoom factors `f, g > 0`, the wheel-zoom update leaves `screenToWorld` at the
anchor unchanged, and so does a second zoom at the same anchor. -/
theorem wheelZoom_anchor_invariant (s : State) (mx my f g : ℚ)
    (hz : 0 < s.zoom) (hf : 0 < f) (hg : 0 < g) :
    screenToWorld (wheelZoomAt s mx my f) mx my = screenToWorld s mx my ∧
    screenToWorld (wheelZoomAt (wheelZoomAt s mx my f) mx my g) mx my
      = screenToWorld s mx my := by
  have hz' : s.zoom ≠ 0 := ne_of_gt hz
  have hf' : f ≠ 0 := ne_of_gt hf
  have hg' : g ≠ 0 := ne_of_gt hg
  unfold screenToWorld wheelZoomAt
  refine ⟨?_, ?_⟩ <;>
    · simp only [Prod.mk.injEq]
      constructor <;> (field_simp; ring)

/-- Witness for C3 at the initial state, anchor `(400, 300)`, factors
`0.9` and `1.1`. -/
theorem wheelZoom_anchor_invariant_witness :
    0 < initState.zoom ∧ 0 < (9/10 : ℚ) ∧ 0 < (11/10 : ℚ) ∧
    (screenToWorld (wheelZoomAt initState 400 300 (9/10)) 400 300
       = screenToWorld initState 400 300 ∧
     screenToWorld
        (wheelZoomAt (wheelZoomAt initState 400 300 (9/10)) 400 300 (11/10))
        400 300
       = screenToWorld initState 400 300) :=
  ⟨by norm_num [initState], by norm_num, by norm_num,
   wheelZoom_anchor_invariant initState 400 300 (9/10) (11/10)
     (by norm_num [initState]) (by norm_num) (by norm_num)⟩

/-! ## C6, C7: LOD stride -/

/-- C6: for every `zoom > 0` the LOD stride is
`max 1 ⌈MIN_VISIBLE_PIXELS / (TILE_SIZE * zoom)⌉`; at `zoom = 0.05` the
pixels-per-tile value is `0.8` and the stride is `5`; and whenever
`TILE_SIZE * zoom ≥ MIN_VISIBLE_PIXELS` the stride is `1`. -/
theorem lod_step_formula (z : ℚ) (hz : 0 < z) :
    stepOf z = max 1 ⌈MIN_VISIBLE_PIXELS / ((TILE_SIZE : ℚ) * z)⌉ ∧
    ((TILE_SIZE : ℚ) * (1/20) = 4/5 ∧ stepOf (1/20) = 5) ∧
    (MIN_VISIBLE_PIXELS ≤ (TILE_SIZE : ℚ) * z → stepOf z = 1) := by
  refine ⟨rfl, ⟨by norm_num [TILE_SIZE], ?_⟩, ?_⟩
  · rw [stepOf, show MIN_VISIBLE_PIXELS / ((TILE_SIZE : ℚ) * (1/20))
        = ((5 : ℤ) : ℚ) by norm_num [MIN_VISIBLE_PIXELS, TILE_SIZE],
      Int.ceil_intCast]
    decide
  · intro hge
    have hpos : (0 : ℚ) < (TILE_SIZE : ℚ) * z := by
      have : (0:ℚ) < (TILE_SIZE : ℚ) := by norm_num [TILE_SIZE]
      positivity
    have hle : MIN_VISIBLE_PIXELS / ((TILE_SIZE : ℚ) * z) ≤ 1 :=
      (div_le_one hpos).mpr hge
    have hceil : ⌈MIN_VISIBLE_PIXELS / ((TILE_SIZE : ℚ) * z)⌉ ≤ 1 :=
      Int.ceil_le.mpr (by exact_mod_cast hle)
    simp [stepOf, max_eq_left hceil]

/-- Witness for C6 at `zoom = 1/2` (where `TILE_SIZE * zoom = 8 ≥ 4`). -/
theorem lod_step_formula_witness :
    0 < (1/2 : ℚ) ∧
    (stepOf (1/2) = max 1 ⌈MIN_VISIBLE_PIXELS / ((TILE_SIZE : ℚ) * (1/2))⌉ ∧
     ((TILE_SIZE : ℚ) * (1/20) = 4/5 ∧ stepOf (1/20) = 5) ∧
     (MIN_VISIBLE_PIXELS ≤ (TILE_SIZE : ℚ) * (1/2) → stepOf (1/2) = 1)) :=
  ⟨by norm_num, lod_step_formula (1/2) (by norm_num)⟩

/-- C7: the LOD stride is antitone in the zoom factor: for
`0 < zoomA ≤ zoomB`, the stride at `zoomA` is at least the stride at
`zoomB`. -/
theorem lod_step_antitone (zA zB : ℚ) (hA : 0 < zA) (hAB : zA ≤ zB) :
    stepOf zB ≤ stepOf zA := by
  have hB : 0 < zB := lt_of_lt_of_le hA hAB
  have hTS : (0 : ℚ) < (TILE_SIZE : ℚ) := by norm_num [TILE_SIZE]
  have hMIN : (0 : ℚ) ≤ MIN_VISIBLE_PIXELS := by norm_num [MIN_VISIBLE_PIXELS]
  have hdiv : MIN_VISIBLE_PIXELS / ((TILE_SIZE : ℚ) * zB)
      ≤ MIN_VISIBLE_PIXELS / ((TILE_SIZE : ℚ) * zA) := by
    apply div_le_div_of_nonneg_left hMIN (by positivity)
    exact mul_le_mul_of_nonneg_left hAB (le_of_lt hTS)
  exact max_le_max le_rfl (Int.ceil_mono hdiv)

/-- Witness for C7 at `zoomA = 1/20 ≤ zoomB = 1`. -/
theorem lod_step_antitone_witness :
    0 < (1/20 : ℚ) ∧ (1/20 : ℚ) ≤ 1 ∧ stepOf 1 ≤ stepOf (1/20) :=
  ⟨by norm_num, by norm_num,
   lod_step_antitone (1/20) 1 (by norm_num) (by norm_num)⟩

/-! ## C2: hover picking near the origin -/

/-- C2 (code bug): at `offset = (8, 8)`, `zoom = 1`, pointer `(0, 0)`, the
world coordinate is `-8` on both axes — inside `(-TILE_SIZE, 0)` — yet
`updateHoveredTile` reports tile `(0, 0)`: the C cast
`(int)(fx / TILE_SIZE)` truncates `-0.5` toward zero instead of flooring it
to `-1`, so the pick does not return "none" as floor semantics requires. -/
theorem hover_truncation_bug :
    let s : State :=
      { offsetX := 8, offsetY := 8, zoom := 1, hoveredX := -1, hoveredY := -1 }
    (-(TILE_SIZE : ℚ) < ((0 : ℚ) - s.offsetX) / s.zoom ∧
       ((0 : ℚ) - s.offsetX) / s.zoom < 0) ∧
    (updateHoveredTile s 0 0).hoveredX = 0 ∧
    (updateHoveredTile s 0 0).hoveredY = 0 ∧
    ⌊(((0 : ℚ) - s.offsetX) / s.zoom) / (TILE_SIZE : ℚ)⌋ = -1 := by
  intro s
  have hworld : ((0 : ℚ) - s.offsetX) / s.zoom = -8 := by norm_num [s]
  have harg : (((0 : ℤ) : ℚ) - s.offsetX) / s.zoom / (TILE_SIZE : ℚ) = -1/2 := by
    norm_num [s, TILE_SIZE]
  have hceil : ⌈(-1/2 : ℚ)⌉ = 0 := by
    rw [Int.ceil_eq_iff] <;> norm_num
  have htrunc : cIntCast (-1/2 : ℚ) = 0 := by
    rw [cIntCast, if_neg (by norm_num)]
    exact hceil
  have hupd : updateHoveredTile s 0 0 =
      { s with hoveredX := 0, hoveredY := 0 } := by
    rw [updateHoveredTile]
    simp only [harg, htrunc]
    rw [if_pos]
    norm_num [MAP_WIDTH, MAP_HEIGHT]
  refine ⟨⟨?_, ?_⟩, ?_, ?_, ?_⟩
  · rw [hworld]; norm_num [TILE_SIZE]
  · rw [hworld]; norm_num
  · rw [hupd]
  · rw [hupd]
  · have : (((0 : ℚ) - s.offsetX) / s.zoom) / (TILE_SIZE : ℚ) = -1/2 := by
      norm_num [s, TILE_SIZE]
    rw [this, Int.floor_eq_iff] <;> norm_num

/-! ## C4: positivity of the zoom factor -/

lemma updateHoveredTile_offsetX (s : State) (mx my : ℤ) :
    (updateHoveredTile s mx my).offsetX = s.offsetX := by
  rw [updateHoveredTile]; split <;> rfl

lemma updateHoveredTile_offsetY (s : State) (mx my : ℤ) :
    (updateHoveredTile s mx my).offsetY = s.offsetY := by
  rw [updateHoveredTile]; split <;> rfl

lemma updateHoveredTile_zoom (s : State) (mx my : ℤ) :
    (updateHoveredTile s mx my).zoom = s.zoom := by
  rw [updateHoveredTile]; split <;> rfl

/-- Every event handler keeps the zoom strictly positive: the wheel handler
multiplies it by `0.9` or `1.1`, no other handler writes it. -/
lemma stepEvent_zoom_pos (s : State) (e : Event) (h : 0 < s.zoom) :
    0 < (stepEvent s e).zoom := by
  cases e with
  | drag dx dy => exact h
  | wheel mx my down =>
      show 0 < s.zoom * (if down then (9:ℚ)/10 else 11/10)
      have hfac : (0:ℚ) < (if down then (9:ℚ)/10 else 11/10) := by
        cases down <;> norm_num
      exact mul_pos h hfac
  | move mx my => rw [show stepEvent s (.move mx my) = updateHoveredTile s mx my
      from rfl, updateHoveredTile_zoom]; exact h
  | hscroll p => exact h
  | vscroll p => exact h

lemma runEvents_zoom_pos (es : List Event) :
    ∀ s : State, 0 < s.zoom → 0 < (runEvents s es).zoom := by
  induction es with
  | nil => intro s h; exact h
  | cons e es ih =>
      intro s h
      exact ih (stepEvent s e) (stepEvent_zoom_pos s e h)

/-- C4 (amended): starting from `zoom = 1`, after any finite sequence of
input events the zoom remains strictly positive — in exact arithmetic each
wheel event multiplies it by `0.9` or `1.1` and no other event touches it.
(The code performs no clamping; see the accompanying counterexample.) -/
theorem zoom_always_positive (es : List Event) :
    0 < (runEvents initState es).zoom :=
  runEvents_zoom_pos es initState (by norm_num [initState])

/-- The zoom after `n` wheel-zoom-out events is the starting zoom times
`(9/10)ⁿ` — plain unclamped multiplication. -/
lemma runEvents_replicate_wheel_zoom (n : ℕ) :
    ∀ s : State,
      (runEvents s (List.replicate n (Event.wheel 0 0 true))).zoom
        = s.zoom * (9/10 : ℚ) ^ n := by
  induction n with
  | zero => intro s; simp [runEvents]
  | succ n ih =>
      intro s
      rw [List.replicate_succ]
      show (runEvents (stepEvent s (Event.wheel 0 0 true))
              (List.replicate n (Event.wheel 0 0 true))).zoom = _
      rw [ih (stepEvent s (Event.wheel 0 0 true))]
      show s.zoom * (9/10 : ℚ) * (9/10 : ℚ) ^ n = s.zoom * (9/10 : ℚ) ^ (n + 1)
      ring

/-- Counterexample to C4's clamping clause: 200 wheel-zoom-out events leave
`zoom = (9/10)²⁰⁰` — the raw product, nothing clamped — and no positive
lower bound `ε` on the zoom survives all event sequences, so no clamping or
rejection of updates happens at the mutation site. -/
theorem zoom_no_clamp_counterexample :
    (runEvents initState (List.replicate 200 (Event.wheel 0 0 true))).zoom
      = (9/10 : ℚ) ^ 200 ∧
    ¬ ∃ ε : ℚ, 0 < ε ∧
        ∀ es : List Event, ε ≤ (runEvents initState es).zoom := by
  constructor
  · rw [runEvents_replicate_wheel_zoom 200 initState]
    norm_num [initState]
  · rintro ⟨ε, hε, hall⟩
    obtain ⟨n, hn⟩ := exists_pow_lt_of_lt_one hε (by norm_num : (9/10 : ℚ) < 1)
    have h := hall (List.replicate n (Event.wheel 0 0 true))
    rw [runEvents_replicate_wheel_zoom n initState] at h
    have : initState.zoom = 1 := rfl
    rw [this, one_mul] at h
    linarith

/-! ## C10: hover-state invariant and the outline guard -/

/-- The hovered pair is either the "none" sentinel `(-1, -1)` or an
in-bounds tile coordinate. -/
def hoverInvariant (s : State) : Prop :=
  (s.hoveredX = -1 ∧ s.hoveredY = -1) ∨
  (0 ≤ s.hoveredX ∧ s.hoveredX < MAP_WIDTH ∧
   0 ≤ s.hoveredY ∧ s.hoveredY < MAP_HEIGHT)

lemma hoverInvariant_updateHoveredTile (s : State) (mx my : ℤ) :
    hoverInvariant (updateHoveredTile s mx my) := by
  rw [updateHoveredTile]
  split
  · next h => exact Or.inr ⟨h.1, h.2.2.1, h.2.1, h.2.2.2⟩
  · exact Or.inl ⟨rfl, rfl⟩

lemma hoverInvariant_step (s : State) (e : Event) (h : hoverInvariant s) :
    hoverInvariant (stepEvent s e) := by
  cases e with
  | drag dx dy => exact h
  | wheel mx my down => exact h
  | move mx my => exact hoverInvariant_updateHoveredTile s mx my
  | hscroll p => exact h
  | vscroll p => exact h

lemma runEvents_hoverInvariant (es : List Event) :
    ∀ s : State, hoverInvariant s → hoverInvariant (runEvents s es) := by
  induction es with
  | nil => intro s h; exact h
  | cons e es ih => intro s h; exact ih (stepEvent s e) (hoverInvariant_step s e h)

/-- C10: after any event sequence from the initial state, the hovered pair
is either exactly `(-1, -1)` or lies within
`[0, MAP_WIDTH) × [0, MAP_HEIGHT)`; and the outline guard
`hoveredX >= 0 && hoveredY >= 0` of the draw pass holds iff the state is in
the in-bounds case, so the outline never references an off-grid tile. -/
theorem hover_state_and_outline (es : List Event) :
    (((runEvents initState es).hoveredX = -1 ∧
        (runEvents initState es).hoveredY = -1) ∨
      (0 ≤ (runEvents initState es).hoveredX ∧
       (runEvents initState es).hoveredX < MAP_WIDTH ∧
       0 ≤ (runEvents initState es).hoveredY ∧
       (runEvents initState es).hoveredY < MAP_HEIGHT)) ∧
    (drawsHoverOutline (runEvents initState es) ↔
      (0 ≤ (runEvents initState es).hoveredX ∧
       (runEvents initState es).hoveredX < MAP_WIDTH ∧
       0 ≤ (runEvents initState es).hoveredY ∧
       (runEvents initState es).hoveredY < MAP_HEIGHT)) := by
  have hinv := runEvents_hoverInvariant es initState (Or.inl ⟨rfl, rfl⟩)
  refine ⟨hinv, ?_, ?_⟩
  · rintro ⟨hx, hy⟩
    rcases hinv with ⟨h1, _⟩ | h2
    · rw [h1] at hx; norm_num at hx
    · exact h2
  · rintro ⟨a, b, c, d⟩
    exact ⟨a, c⟩

/-! ## C5: degenerate 0×0 viewport -/

/-- The C loop `for (x = t0; x < t1; x += s)` runs at most `k` iterations
when `t1 - t0 ≤ k * s`. -/
lemma loopIters_length_le : ∀ (k : ℕ) (t0 t1 s : ℤ), 0 < s →
    t1 - t0 ≤ (k : ℤ) * s → (loopIters t0 t1 s).length ≤ k := by
  intro k
  induction k with
  | zero =>
      intro t0 t1 s hs hle
      rw [loopIters, dif_neg]
      · simp
      · push_neg
        intro _
        simp only [Nat.cast_zero, zero_mul] at hle
        omega
  | succ k ih =>
      intro t0 t1 s hs hle
      rw [loopIters]
      split
      · simp only [List.length_cons, Nat.add_le_add_iff_right]
        apply ih (t0 + s) t1 s hs
        have hcast : ((k + 1 : ℕ) : ℤ) * s = (k : ℤ) * s + s := by push_cast; ring
        rw [hcast] at hle
        omega
      · simp

/-- One clamped culler axis spans at most `k * s` tile indices when the
unclamped tile-space extent is at most `k * s - 1`. -/
lemma clamped_range_le (a b : ℚ) (M s : ℤ) (k : ℕ) (hs : 0 < s)
    (h : b - a ≤ (k : ℚ) * (s : ℚ) - 1) :
    min M ⌈b⌉ - max 0 ⌊a⌋ ≤ (k : ℤ) * s := by
  have h1 : (⌈b⌉ : ℚ) < b + 1 := Int.ceil_lt_add_one b
  have h2 : a - 1 < (⌊a⌋ : ℚ) := Int.sub_one_lt_floor a
  have h3 : ((⌈b⌉ - ⌊a⌋ : ℤ) : ℚ) < (((k : ℤ) * s : ℤ) : ℚ) + 1 := by
    push_cast
    linarith
  have h4 : ⌈b⌉ - ⌊a⌋ < (k : ℤ) * s + 1 := by exact_mod_cast h3
  have h5 : min M ⌈b⌉ - max 0 ⌊a⌋ ≤ ⌈b⌉ - ⌊a⌋ :=
    sub_le_sub (min_le_right _ _) (le_max_right _ _)
  omega

lemma computeRange_tileX0 (ox oy z : ℚ) (w h : ℤ) :
    (computeRange ox oy z w h).tileX0
      = max 0 ⌊-ox * (1 / z) / (TILE_SIZE : ℚ)⌋ := rfl

lemma computeRange_tileY0 (ox oy z : ℚ) (w h : ℤ) :
    (computeRange ox oy z w h).tileY0
      = max 0 ⌊-oy * (1 / z) / (TILE_SIZE : ℚ)⌋ := rfl

lemma computeRange_tileX1 (ox oy z : ℚ) (w h : ℤ) :
    (computeRange ox oy z w h).tileX1
      = min MAP_WIDTH ⌈((w : ℚ) - ox) * (1 / z) / (TILE_SIZE : ℚ)⌉ := rfl

lemma computeRange_tileY1 (ox oy z : ℚ) (w h : ℤ) :
    (computeRange ox oy z w h).tileY1
      = min MAP_HEIGHT ⌈((h : ℚ) - oy) * (1 / z) / (TILE_SIZE : ℚ)⌉ := rfl

lemma computeRange_step (ox oy z : ℚ) (w h : ℤ) :
    (computeRange ox oy z w h).step = stepOf z := rfl

/-- C5 counterexample: at `offset = (-8, -8)`, `zoom = 1`, with a `0×0`
viewport, the culled range is `[0,1) × [0,1)` and the tile loop visits
exactly one cell, not zero. -/
theorem degenerate_viewport_counterexample :
    visitedCount (computeRange (-8) (-8) 1 0 0) = 1 := by
  have hfloor : ⌊(1/2 : ℚ)⌋ = 0 := by rw [Int.floor_eq_iff] <;> norm_num
  have hceil : ⌈(1/2 : ℚ)⌉ = 1 := by rw [Int.ceil_eq_iff] <;> norm_num
  have hceil4 : ⌈(1/4 : ℚ)⌉ = 1 := by rw [Int.ceil_eq_iff] <;> norm_num
  have hrange : computeRange (-8) (-8) 1 0 0 = ⟨0, 0, 1, 1, 1⟩ := by
    rw [computeRange, stepOf]
    simp only [MAP_WIDTH, MAP_HEIGHT, TILE_SIZE, MIN_VISIBLE_PIXELS]
    norm_num [hfloor, hceil, hceil4]
  rw [hrange, visitedCount]
  have h1 : loopIters 1 1 1 = [] := by
    rw [loopIters, dif_neg]
    push_neg
    intro _
    omega
  have h0 : loopIters 0 1 1 = [0] := by
    rw [loopIters, dif_pos (by omega : (0:ℤ) < 1 ∧ (0:ℤ) < 1)]
    norm_num [h1]
  simp [h0]

/-- C5 (amended): for a `0×0` viewport the world-space view interval is a
single point on each axis, so the culled range spans at most one tile index
per axis and the tile loop visits at most one cell (zero in most positions,
one when that point falls strictly inside an in-bounds tile). The
computation divides only by `zoom` (nonzero here); the viewport size is
never a divisor, so no division by zero occurs. -/
theorem degenerate_viewport_at_most_one_cell (ox oy z : ℚ) (hz : 0 < z) :
    visitedCount (computeRange ox oy z 0 0) ≤ 1 := by
  have hstep : (1 : ℤ) ≤ stepOf z := le_max_left _ _
  have hstepQ : (1 : ℚ) ≤ ((stepOf z : ℤ) : ℚ) := by exact_mod_cast hstep
  have hs : (0 : ℤ) < stepOf z := by omega
  rw [visitedCount, computeRange_tileX0, computeRange_tileX1,
    computeRange_tileY0, computeRange_tileY1, computeRange_step]
  have hx := clamped_range_le (-ox * (1 / z) / (TILE_SIZE : ℚ))
      ((((0:ℤ) : ℚ) - ox) * (1 / z) / (TILE_SIZE : ℚ)) MAP_WIDTH (stepOf z) 1 hs
      (by
        have heq : (((0:ℤ) : ℚ) - ox) * (1 / z) / (TILE_SIZE : ℚ)
            = -ox * (1 / z) / (TILE_SIZE : ℚ) := by norm_num
        rw [heq]
        push_cast
        linarith)
  have hy := clamped_range_le (-oy * (1 / z) / (TILE_SIZE : ℚ))
      ((((0:ℤ) : ℚ) - oy) * (1 / z) / (TILE_SIZE : ℚ)) MAP_HEIGHT (stepOf z) 1 hs
      (by
        have heq : (((0:ℤ) : ℚ) - oy) * (1 / z) / (TILE_SIZE : ℚ)
            = -oy * (1 / z) / (TILE_SIZE : ℚ) := by norm_num
        rw [heq]
        push_cast
        linarith)
  have lx := loopIters_length_le 1 _ _ _ hs hx
  have ly := loopIters_length_le 1 _ _ _ hs hy
  calc _ ≤ 1 * 1 := Nat.mul_le_mul lx ly
    _ = 1 := by norm_num

/-- Witness for C5's amended theorem at `offset = (3, 7)`, `zoom = 2`. -/
theorem degenerate_viewport_at_most_one_cell_witness :
    0 < (2 : ℚ) ∧ visitedCount (computeRange 3 7 2 0 0) ≤ 1 :=
  ⟨by norm_num, degenerate_viewport_at_most_one_cell 3 7 2 (by norm_num)⟩

/-! ## C9: scrollbar synchronization -/

lemma cIntCast_intCast (n : ℤ) : cIntCast ((n : ℤ) : ℚ) = n := by
  rw [cIntCast]
  split
  · exact Int.floor_intCast n
  · exact Int.ceil_intCast n

/-- C9 (amended): after a transform mutation, `updateScrollbars` sets each
axis's scrollbar to `position = trunc(-offset)`, `pageSize = viewport
extent`, `min = 0`, `max = max(viewportExtent, trunc(contentExtent))` with
`contentExtent = MAP_{WIDTH,HEIGHT} * TILE_SIZE * zoom` — the truncations
are the C `int` casts of the scrollbar API, and position equals `-offset`
exactly whenever the offset is integral; a user scrollbar change sets the
corresponding offset to `-position` absolutely (independent of the previous
offset), touching no other state and not re-running `updateScrollbars`. -/
theorem scroll_sync (s : State) (viewW viewH p : ℤ) :
    ((updateScrollbars s viewW viewH).1.pos = cIntCast (-s.offsetX) ∧
     (updateScrollbars s viewW viewH).1.pageSize = viewW ∧
     (updateScrollbars s viewW viewH).1.minV = 0 ∧
     (updateScrollbars s viewW viewH).1.maxV
       = max viewW (cIntCast (((MAP_WIDTH * TILE_SIZE : ℤ) : ℚ) * s.zoom))) ∧
    ((updateScrollbars s viewW viewH).2.pos = cIntCast (-s.offsetY) ∧
     (updateScrollbars s viewW viewH).2.pageSize = viewH ∧
     (updateScrollbars s viewW viewH).2.minV = 0 ∧
     (updateScrollbars s viewW viewH).2.maxV
       = max viewH (cIntCast (((MAP_HEIGHT * TILE_SIZE : ℤ) : ℚ) * s.zoom))) ∧
    (∀ n : ℤ, s.offsetX = (n : ℚ) →
       (((updateScrollbars s viewW viewH).1.pos : ℤ) : ℚ) = -s.offsetX) ∧
    (∀ n : ℤ, s.offsetY = (n : ℚ) →
       (((updateScrollbars s viewW viewH).2.pos : ℤ) : ℚ) = -s.offsetY) ∧
    ((hscrollCallback s p).offsetX = -(p : ℚ) ∧
     (hscrollCallback s p).offsetY = s.offsetY ∧
     (hscrollCallback s p).zoom = s.zoom ∧
     (hscrollCallback s p).hoveredX = s.hoveredX ∧
     (hscrollCallback s p).hoveredY = s.hoveredY ∧
     (∀ q : ℚ, (hscrollCallback { s with offsetX := q } p).offsetX = -(p : ℚ))) ∧
    ((vscrollCallback s p).offsetY = -(p : ℚ) ∧
     (vscrollCallback s p).offsetX = s.offsetX ∧
     (vscrollCallback s p).zoom = s.zoom ∧
     (vscrollCallback s p).hoveredX = s.hoveredX ∧
     (vscrollCallback s p).hoveredY = s.hoveredY ∧
     (∀ q : ℚ, (vscrollCallback { s with offsetY := q } p).offsetY = -(p : ℚ))) := by
  refine ⟨⟨rfl, rfl, rfl, rfl⟩, ⟨rfl, rfl, rfl, rfl⟩, ?_, ?_,
    ⟨rfl, rfl, rfl, rfl, rfl, fun q => rfl⟩,
    ⟨rfl, rfl, rfl, rfl, rfl, fun q => rfl⟩⟩
  · intro n hn
    have h1 : (updateScrollbars s viewW viewH).1.pos = cIntCast (-s.offsetX) := rfl
    rw [h1, hn, show -((n : ℤ) : ℚ) = (((-n : ℤ) : ℤ) : ℚ) by push_cast; ring,
      cIntCast_intCast]
  · intro n hn
    have h1 : (updateScrollbars s viewW viewH).2.pos = cIntCast (-s.offsetY) := rfl
    rw [h1, hn, show -((n : ℤ) : ℚ) = (((-n : ℤ) : ℤ) : ℚ) by push_cast; ring,
      cIntCast_intCast]

/-- Witness for C9's amended theorem at an integral offset `-3`: the
horizontal scrollbar position then equals `-offset` exactly. -/
theorem scroll_sync_witness :
    (((updateScrollbars
        { offsetX := ((-3 : ℤ) : ℚ), offsetY := ((4 : ℤ) : ℚ), zoom := 1,
          hoveredX := -1, hoveredY := -1 } 800 600).1.pos : ℤ) : ℚ)
      = -({ offsetX := ((-3 : ℤ) : ℚ), offsetY := ((4 : ℤ) : ℚ), zoom := 1,
            hoveredX := -1, hoveredY := -1 } : State).offsetX :=
  (scroll_sync
    { offsetX := ((-3 : ℤ) : ℚ), offsetY := ((4 : ℤ) : ℚ), zoom := 1,
      hoveredX := -1, hoveredY := -1 } 800 600 5).2.2.1 (-3) rfl

/-- Counterexample to C9 as stated: at `offsetX = -2.5` the horizontal
scrollbar position is the truncated value `2`, which is not `-offsetX =
2.5` — the scrollbar API is integer-valued, so `position = -offset` cannot
hold exactly for fractional offsets. -/
theorem scroll_position_truncation_counterexample :
    ((((updateScrollbars
        { offsetX := -5/2, offsetY := 0, zoom := 1,
          hoveredX := -1, hoveredY := -1 } 800 600).1.pos : ℤ) : ℚ)
       ≠ -(-5/2 : ℚ)) ∧
    (updateScrollbars
        { offsetX := -5/2, offsetY := 0, zoom := 1,
          hoveredX := -1, hoveredY := -1 } 800 600).1.pos = 2 := by
  have hpos : (updateScrollbars
      { offsetX := -5/2, offsetY := 0, zoom := 1,
        hoveredX := -1, hoveredY := -1 } 800 600).1.pos
      = cIntCast (-(-5/2 : ℚ)) := rfl
  have hval : cIntCast (-(-5/2 : ℚ)) = 2 := by
    rw [cIntCast, if_pos (by norm_num)]
    rw [show -(-5/2 : ℚ) = 5/2 by norm_num, Int.floor_eq_iff] <;> norm_num
  constructor
  · rw [hpos, hval]
    norm_num
  · rw [hpos, hval]

/-! ## C1: the culled range covers every visible tile and stays in bounds -/

/-- C1: for any transform with `zoom > 0` and any viewport size, the culled
tile range contains every in-bounds tile whose world-space quad overlaps
the viewport's world-space rectangle, and every index of the half-open
range `[tileX0, tileX1) × [tileY0, tileY1)` lies inside
`[0, MAP_WIDTH) × [0, MAP_HEIGHT)`. -/
theorem culler_superset_and_in_bounds (ox oy z : ℚ) (w h : ℤ) (hz : 0 < z) :
    (∀ tx ty : ℤ, 0 ≤ tx → tx < MAP_WIDTH → 0 ≤ ty → ty < MAP_HEIGHT →
       tileOverlapsViewport ox oy z w h tx ty →
       ((computeRange ox oy z w h).tileX0 ≤ tx ∧
        tx < (computeRange ox oy z w h).tileX1 ∧
        (computeRange ox oy z w h).tileY0 ≤ ty ∧
        ty < (computeRange ox oy z w h).tileY1)) ∧
    (∀ i : ℤ, (computeRange ox oy z w h).tileX0 ≤ i →
       i < (computeRange ox oy z w h).tileX1 → 0 ≤ i ∧ i < MAP_WIDTH) ∧
    (∀ j : ℤ, (computeRange ox oy z w h).tileY0 ≤ j →
       j < (computeRange ox oy z w h).tileY1 → 0 ≤ j ∧ j < MAP_HEIGHT) := by
  have h16 : (0:ℚ) < 16 := by norm_num
  have hTS : (TILE_SIZE : ℚ) = 16 := by norm_num [TILE_SIZE]
  refine ⟨?_, ?_, ?_⟩
  · intro tx ty hx0 hxW hy0 hyH hov
    obtain ⟨o1, o2, o3, o4⟩ := hov
    rw [hTS] at o1 o2 o3 o4
    rw [computeRange_tileX0, computeRange_tileX1,
      computeRange_tileY0, computeRange_tileY1, hTS]
    refine ⟨max_le hx0 ?_, lt_min hxW ?_, max_le hy0 ?_, lt_min hyH ?_⟩
    · have hlt : -ox * (1/z) / 16 < (tx:ℚ) + 1 := by
        rw [mul_one_div, div_lt_iff h16]
        exact o2
      have hf : ⌊-ox * (1/z) / 16⌋ < tx + 1 :=
        Int.floor_lt.mpr (by push_cast; exact hlt)
      omega
    · refine Int.lt_ceil.mpr ?_
      rw [mul_one_div, lt_div_iff h16]
      exact o1
    · have hlt : -oy * (1/z) / 16 < (ty:ℚ) + 1 := by
        rw [mul_one_div, div_lt_iff h16]
        exact o4
      have hf : ⌊-oy * (1/z) / 16⌋ < ty + 1 :=
        Int.floor_lt.mpr (by push_cast; exact hlt)
      omega
    · refine Int.lt_ceil.mpr ?_
      rw [mul_one_div, lt_div_iff h16]
      exact o3
  · intro i h1 h2
    rw [computeRange_tileX0] at h1
    rw [computeRange_tileX1] at h2
    exact ⟨le_trans (le_max_left 0 _) h1, lt_of_lt_of_le h2 (min_le_left _ _)⟩
  · intro j h1 h2
    rw [computeRange_tileY0] at h1
    rw [computeRange_tileY1] at h2
    exact ⟨le_trans (le_max_left 0 _) h1, lt_of_lt_of_le h2 (min_le_left _ _)⟩

/-- Witness for C1 at `offset = (-100, 50)`, `zoom = 1/2`, viewport
`800 × 600`. -/
theorem culler_superset_and_in_bounds_witness :
    0 < (1/2 : ℚ) ∧
    ((∀ tx ty : ℤ, 0 ≤ tx → tx < MAP_WIDTH → 0 ≤ ty → ty < MAP_HEIGHT →
        tileOverlapsViewport (-100) 50 (1/2) 800 600 tx ty →
        ((computeRange (-100) 50 (1/2) 800 600).tileX0 ≤ tx ∧
         tx < (computeRange (-100) 50 (1/2) 800 600).tileX1 ∧
         (computeRange (-100) 50 (1/2) 800 600).tileY0 ≤ ty ∧
         ty < (computeRange (-100) 50 (1/2) 800 600).tileY1)) ∧
     (∀ i : ℤ, (computeRange (-100) 50 (1/2) 800 600).tileX0 ≤ i →
        i < (computeRange (-100) 50 (1/2) 800 600).tileX1 →
        0 ≤ i ∧ i < MAP_WIDTH) ∧
     (∀ j : ℤ, (computeRange (-100) 50 (1/2) 800 600).tileY0 ≤ j →
        j < (computeRange (-100) 50 (1/2) 800 600).tileY1 →
        0 ≤ j ∧ j < MAP_HEIGHT)) :=
  ⟨by norm_num,
   culler_superset_and_in_bounds (-100) 50 (1/2) 800 600 (by norm_num)⟩

/-! ## C8: the per-frame draw-call count is bounded uniformly in zoom/pan -/

/-- C8: for a fixed viewport `w × h` the nested tile loop visits at most
`(w/4 + 2) * (h/4 + 2)` cells (`4` being `MIN_VISIBLE_PIXELS`) — a bound
depending only on the viewport size and the two constants, uniform over
all offsets and all `zoom > 0`, and independent of `MAP_WIDTH`/`MAP_HEIGHT`. -/
theorem draw_calls_bounded (ox oy z : ℚ) (w h : ℤ) (hz : 0 < z)
    (hw : 0 ≤ w) (hh : 0 ≤ h) :
    visitedCount (computeRange ox oy z w h)
      ≤ (w.toNat / 4 + 2) * (h.toNat / 4 + 2) := by
  have hs1 : (1 : ℤ) ≤ stepOf z := le_max_left _ _
  have hs0 : (0 : ℤ) < stepOf z := by omega
  have hsQ1 : (1 : ℚ) ≤ ((stepOf z : ℤ) : ℚ) := by exact_mod_cast hs1
  have hsceil : (⌈MIN_VISIBLE_PIXELS / ((TILE_SIZE : ℚ) * z)⌉ : ℤ) ≤ stepOf z :=
    le_max_right _ _
  have hsq : (4 : ℚ) / (16 * z) ≤ ((stepOf z : ℤ) : ℚ) := by
    have h1 : MIN_VISIBLE_PIXELS / ((TILE_SIZE : ℚ) * z)
        ≤ ((stepOf z : ℤ) : ℚ) :=
      le_trans (Int.le_ceil _) (by exact_mod_cast hsceil)
    rw [MIN_VISIBLE_PIXELS] at h1
    rw [show ((TILE_SIZE : ℤ) : ℚ) = 16 by norm_num [TILE_SIZE]] at h1
    exact h1
  -- per-axis bound on the tile-space extent
  have axis : ∀ (off : ℚ) (v : ℤ), 0 ≤ v →
      ((v : ℚ) - off) * (1/z) / (TILE_SIZE : ℚ) - -off * (1/z) / (TILE_SIZE : ℚ)
        ≤ ((v.toNat / 4 + 2 : ℕ) : ℚ) * ((stepOf z : ℤ) : ℚ) - 1 := by
    intro off v hv
    have hvQ : (0 : ℚ) ≤ (v : ℚ) := by exact_mod_cast hv
    have hba : ((v : ℚ) - off) * (1/z) / (TILE_SIZE : ℚ)
        - -off * (1/z) / (TILE_SIZE : ℚ) = (v : ℚ) / (16 * z) := by
      rw [show (TILE_SIZE : ℚ) = 16 by norm_num [TILE_SIZE], div_sub_div_same,
        show ((v : ℚ) - off) * (1/z) - -off * (1/z) = (v : ℚ) * (1/z) by ring,
        mul_one_div, div_div, mul_comm z 16]
    rw [hba]
    set sq : ℚ := ((stepOf z : ℤ) : ℚ) with hsdef
    have step1 : (v : ℚ) / (16 * z) ≤ (v : ℚ) / 4 * sq := by
      have : (v : ℚ) / (16 * z) = (v : ℚ) / 4 * (4 / (16 * z)) := by
        field_simp
      rw [this]
      exact mul_le_mul_of_nonneg_left hsq (by positivity)
    have hk4 : v.toNat ≤ 4 * (v.toNat / 4) + 3 := by omega
    have hvtn : ((v.toNat : ℕ) : ℚ) = (v : ℚ) := by
      exact_mod_cast Int.toNat_of_nonneg hv
    have hk4Q : (v : ℚ) ≤ 4 * ((v.toNat / 4 : ℕ) : ℚ) + 3 := by
      rw [← hvtn]
      exact_mod_cast hk4
    have hkQ : (v : ℚ) / 4 + 1 ≤ ((v.toNat / 4 + 2 : ℕ) : ℚ) := by
      push_cast
      push_cast at hk4Q
      linarith
    have step2 : (v : ℚ) / 4 * sq ≤ ((v.toNat / 4 + 2 : ℕ) : ℚ) * sq - 1 := by
      have hgap : (1 : ℚ) ≤ (((v.toNat / 4 + 2 : ℕ) : ℚ) - (v : ℚ) / 4) * sq := by
        calc (1 : ℚ) = 1 * 1 := by norm_num
          _ ≤ (((v.toNat / 4 + 2 : ℕ) : ℚ) - (v : ℚ) / 4) * sq := by
              apply mul_le_mul (by linarith) hsQ1 (by norm_num) (by linarith)
      have hexp : (((v.toNat / 4 + 2 : ℕ) : ℚ) - (v : ℚ) / 4) * sq
          = ((v.toNat / 4 + 2 : ℕ) : ℚ) * sq - (v : ℚ) / 4 * sq := by ring
      rw [hexp] at hgap
      linarith
    linarith
  have hxb : (computeRange ox oy z w h).tileX1 - (computeRange ox oy z w h).tileX0
      ≤ ((w.toNat / 4 + 2 : ℕ) : ℤ) * stepOf z := by
    rw [computeRange_tileX0, computeRange_tileX1]
    exact clamped_range_le _ _ _ _ _ hs0 (axis ox w hw)
  have hyb : (computeRange ox oy z w h).tileY1 - (computeRange ox oy z w h).tileY0
      ≤ ((h.toNat / 4 + 2 : ℕ) : ℤ) * stepOf z := by
    rw [computeRange_tileY0, computeRange_tileY1]
    exact clamped_range_le _ _ _ _ _ hs0 (axis oy h hh)
  have hxlen := loopIters_length_le (w.toNat / 4 + 2)
    (computeRange ox oy z w h).tileX0 (computeRange ox oy z w h).tileX1
    (stepOf z) hs0 hxb
  have hylen := loopIters_length_le (h.toNat / 4 + 2)
    (computeRange ox oy z w h).tileY0 (computeRange ox oy z w h).tileY1
    (stepOf z) hs0 hyb
  rw [visitedCount, computeRange_step]
  exact Nat.mul_le_mul hxlen hylen

/-- Witness for C8 at `offset = (-123456, 789)`, `zoom = 1/1000`, viewport
`800 × 600`: at most `202 * 152` cells are visited. -/
theorem draw_calls_bounded_witness :
    0 < (1/1000 : ℚ) ∧ (0 : ℤ) ≤ 800 ∧ (0 : ℤ) ≤ 600 ∧
    visitedCount (computeRange (-123456) 789 (1/1000) 800 600)
      ≤ ((800 : ℤ).toNat / 4 + 2) * ((600 : ℤ).toNat / 4 + 2) :=
  ⟨by norm_num, by norm_num, by norm_num,
   draw_calls_bounded (-123456) 789 (1/1000) 800 600
     (by norm_num) (by norm_num) (by norm_num)⟩

end FLTiles
